import Mathlib

/-!
Shallow embedding of logpipe, an STDIN-to-UNIX-domain-socket log writer
written in Go.  The repository carries three variants of the program; the
claims reference the structured-output-capable variant (the one with
`makeOutString`, `jsonAttrSet` and a `bufio.Reader` based `run`), together
with the shared main/reconnect loop.

Modelling conventions:
- Go strings are modelled as Lean `String` (sequences of Unicode scalar
  values).  Go `len(s)` is a byte count and is modelled by
  `String.utf8ByteSize`; Go `utf8.RuneLen` is `Char.utf8Size`.
- The global mutable map `jsonAttrs` is modelled as an association list
  threaded explicitly through the functions that read or mutate it.
- I/O (socket connect, write+flush, reads from standard input) is
  modelled by explicit parameters: a `Bool` for connect success, a list
  of `Bool` write outcomes, and the list of strings successive
  `reader.ReadString` calls return (the empty list meaning end of
  stream, matching a read of length zero).
- `os.Exit` / `return` control flow is reified in `RunExit`.
-/

namespace Logpipe

/-- Output mode flag: -output-mode is either "line" or "json". -/
inductive OutputMode
  | line
  | json
deriving DecidableEq

/-- The command-line configuration the claims depend on.  `pfx` models
the -prefix flag (the Go name cannot be used as a Lean field name here),
`wrap` models -wrap, `mode` models -output-mode, `escNull` models
-escape-null, `initReconnect` models -retry-initial-connect and
`reconnectTime` models -reconnect-time (an `int` in Go, hence `Int`). -/
structure Config where
  pfx : String
  wrap : Int
  mode : OutputMode
  escNull : Bool
  initReconnect : Bool
  reconnectTime : Int

/-- The `jsonAttrs` map: association list of attribute keys to values. -/
abbrev Attrs := List (String × String)

/-- Go map assignment `m[k] = v`: replace the binding of `k` if present,
otherwise add it. -/
def setAttr : Attrs → String → String → Attrs
  | [], k, v => [(k, v)]
  | (k', v') :: rest, k, v =>
    if k' = k then (k, v) :: rest else (k', v') :: setAttr rest k v

/-- Go map lookup `m[k]`. -/
def lookupA : Attrs → String → Option String
  | [], _ => none
  | (k', v') :: rest, k => if k' = k then some v' else lookupA rest k

/-- Model of Go `strings.SplitN(value, "=", 2)` restricted to the
success shape: split at the first '=' character, returning the parts
before and after it, or `none` when no '=' occurs. -/
def splitEq2 : List Char → Option (List Char × List Char)
  | [] => none
  | c :: cs =>
    if c = '=' then some ([], cs)
    else
      match splitEq2 cs with
      | none => none
      | some (k, v) => some (c :: k, v)

/-- `jsonAttrSet.Set`: parse a -json-attr argument "k=v".  `none` models
the two `log.Fatalf` calls (no '=' present, or key already present);
otherwise the pair is added to the map. -/
def attrSet (m : Attrs) (value : String) : Option Attrs :=
  match splitEq2 value.data with
  | none => none
  | some (k, v) =>
    match lookupA m (String.mk k) with
    | some _ => none
    | none => some (m ++ [(String.mk k, String.mk v)])

/-- Lower-case hexadecimal digit, as Go's encoding/json emits it. -/
def hexDigit (n : Nat) : Char :=
  if n < 10 then Char.ofNat (48 + n) else Char.ofNat (87 + n)

/-- Escaping of one character inside a JSON string, following Go's
encoding/json defaults (HTML-escaping of angle brackets and ampersand
included). -/
def jsonEscapeChar (c : Char) : String :=
  if c = '"' then "\\\""
  else if c = '\\' then "\\\\"
  else if c = '\n' then "\\n"
  else if c = '\r' then "\\r"
  else if c = '\t' then "\\t"
  else if c = '<' then "\\u003c"
  else if c = '>' then "\\u003e"
  else if c = '&' then "\\u0026"
  else if c.toNat < 32 then
    "\\u00" ++ String.mk [hexDigit (c.toNat / 16), hexDigit (c.toNat % 16)]
  else String.mk [c]

/-- Concatenation of a list of strings in order. -/
def joinStrings : List String → String
  | [] => ""
  | s :: rest => s ++ joinStrings rest

/-- A JSON string literal for `s`, per Go's encoding/json. -/
def jsonEncodeString (s : String) : String :=
  "\"" ++ joinStrings (s.data.map jsonEscapeChar) ++ "\""

/-- Lexicographic order on strings by scalar value, the order Go uses
when json.Marshal sorts map keys (for valid UTF-8, byte order and
scalar-value order agree). -/
def strLeb : List Char → List Char → Bool
  | [], _ => true
  | _ :: _, [] => false
  | a :: as, b :: bs =>
    if a.toNat < b.toNat then true
    else if b.toNat < a.toNat then false
    else strLeb as bs

/-- Insert a key/value pair into a list sorted by key. -/
def insertByKey (p : String × String) : Attrs → Attrs
  | [] => [p]
  | q :: rest => if strLeb p.1.data q.1.data then p :: q :: rest else q :: insertByKey p rest

/-- Sort an association list by key (Go's json.Marshal emits map keys
in sorted order). -/
def sortByKey : Attrs → Attrs
  | [] => []
  | p :: rest => insertByKey p (sortByKey rest)

/-- `json.Marshal` applied to the attribute map: a single flat JSON
object with keys in sorted order. -/
def jsonMarshalMap (m : Attrs) : String :=
  "\x7b" ++
    String.intercalate ","
      ((sortByKey m).map (fun kv => jsonEncodeString kv.1 ++ ":" ++ jsonEncodeString kv.2)) ++
  "\x7d"

/-- `makeOutString`: in line mode return the input unchanged; in json
mode assign the input to the "message" key of the shared attribute map
(a mutation, reflected in the returned map) and marshal the map. -/
def makeOutString (cfg : Config) (attrs : Attrs) (instr : String) : String × Attrs :=
  match cfg.mode with
  | OutputMode.line => (instr, attrs)
  | OutputMode.json =>
    let m := setAttr attrs "message" instr
    (jsonMarshalMap m, m)

/-- `strings.Replace(stxt, "\x00", "<NUL>", -1)`: replace every NUL
character by the five-character marker. -/
def escNul (s : String) : String :=
  String.mk (s.data.flatMap (fun c => if c = Char.ofNat 0 then "<NUL>".data else [c]))

/-- The null-escaping step of the record transformer, applied only when
-escape-null is enabled. -/
def escInput (cfg : Config) (r : String) : String :=
  if cfg.escNull then escNul r else r

/-- The precomputed `plen` of `run`: `len(prefix)`, plus one only when
the output mode is "line". -/
def plenOf (cfg : Config) : Nat :=
  let pl := cfg.pfx.utf8ByteSize
  if cfg.mode = OutputMode.line then pl + 1 else pl

/-- The rune-wrapping loop of `run`, at the level of message content:
`cur` is the content accumulated for the current physical line (the
string builder minus the prefix), `lb` is `lineBytes`.  When the next
rune would push `lineBytes` past the wrap width, the current chunk is
flushed and a fresh line is started holding just that rune. -/
def wrapChunks (pl : Nat) (w : Int) : List Char → List Char → Nat → List (List Char)
  | [], cur, _ => [cur]
  | c :: cs, cur, lb =>
    let rb := c.utf8Size
    if (lb + rb : Int) > w then
      cur :: wrapChunks pl w cs [c] (pl + rb)
    else
      wrapChunks pl w cs (cur ++ [c]) (lb + rb)

/-- The chunks the wrap branch of `run` produces for the (already
null-escaped) record `stxt`: the builder starts holding only the
prefix and `lineBytes` starts at `plen`. -/
def recordChunks (cfg : Config) (stxt : String) : List (List Char) :=
  wrapChunks (plenOf cfg) cfg.wrap stxt.data [] (plenOf cfg)

/-- The per-chunk emission of the wrap branch: each chunk is prefixed,
passed through `makeOutString` (threading the attribute map mutation)
and terminated with a newline. -/
def emitChunks (cfg : Config) (attrs : Attrs) : List (List Char) → List String × Attrs
  | [] => ([], attrs)
  | ch :: rest =>
    let p := makeOutString cfg attrs (cfg.pfx ++ String.mk ch)
    let q := emitChunks cfg p.2 rest
    ((p.1 ++ "\n") :: q.1, q.2)

/-- All physical lines (each newline-terminated) that `run` builds for
one record `r`, together with the attribute map after the builds:
either the single-line branch (`wrap` is zero or the prefixed record is
strictly below the wrap width in bytes) or the wrap branch. -/
def physicalLines (cfg : Config) (attrs : Attrs) (r : String) : List String × Attrs :=
  let stxt := escInput cfg r
  if cfg.wrap = 0 ∨ ((stxt.utf8ByteSize + plenOf cfg : Int) < cfg.wrap) then
    let p := makeOutString cfg attrs (cfg.pfx ++ stxt)
    ([p.1 ++ "\n"], p.2)
  else
    emitChunks cfg attrs (recordChunks cfg stxt)

/-- The payload handed to `makeOutString` for each physical line of a
record: the prefixed record in the single-line branch, the prefixed
chunks in the wrap branch. -/
def linePayloads (cfg : Config) (r : String) : List String :=
  let stxt := escInput cfg r
  if cfg.wrap = 0 ∨ ((stxt.utf8ByteSize + plenOf cfg : Int) < cfg.wrap) then
    [cfg.pfx ++ stxt]
  else
    (recordChunks cfg stxt).map (fun ch => cfg.pfx ++ String.mk ch)

/-- The record transformer: the pending output unit `strout` built for
one record, plus the attribute map after the build. -/
def transform (cfg : Config) (attrs : Attrs) (r : String) : String × Attrs :=
  let p := physicalLines cfg attrs r
  (joinStrings p.1, p.2)

/-- Drop the final character of a string; models `stxt[:len(stxt)-1]`
in `run` (for records whose final character is a single-byte one this
is exactly the Go byte slice; Go applies it to every successful read). -/
def strDropLast (s : String) : String :=
  String.mk s.data.dropLast

/-- The read step of `run`: `reader.ReadString` returned `chunk`; a
chunk of length below one breaks the loop (`none`), otherwise the final
character is stripped unconditionally and the rest is the record. -/
def recordOfChunk (chunk : String) : Option String :=
  if chunk.length < 1 then none else some (strDropLast chunk)

/-- Strip the first `n` characters and the final character from a
physical line: recovers the message content of a line-mode physical
line by removing the prefix and the trailing newline. -/
def stripLine (n : Nat) (l : String) : String :=
  String.mk ((l.data.drop n).dropLast)

/-- Observable events of one `run` invocation: a successful
write+flush of a pending unit, a failed write/flush of a pending unit,
or the consumption of one record from standard input. -/
inductive Ev
  | writeOk : String → Ev
  | writeFail : String → Ev
  | readRec : String → Ev
deriving DecidableEq

/-- State local to the streaming loop: the global `strout` (the pending
output unit) and the global `jsonAttrs` map. -/
structure LoopSt where
  strout : String
  attrs : Attrs
deriving DecidableEq

/-- How the streaming loop of `run` ends: `return` after a failed
write/flush, or falling out of the loop at end of stream. -/
inductive LoopExit
  | writeFailed
  | eof
deriving DecidableEq

/-- The streaming loop of `run`.  `ins` is the list of strings that the
successive `reader.ReadString` calls return (exhaustion of the list
models a zero-length read at end of stream); `outs` is the list of
outcomes of the successive write+flush attempts (`false` = failure,
exhaustion treated as success).  Each iteration first writes the
pending unit if nonempty (a failure returns at once, leaving the unit
in place), then reads one chunk, strips its final character, and
transforms the record into the new pending unit. -/
def streamLoop (cfg : Config) (ins : List String) (outs : List Bool) (st : LoopSt) :
    List Ev × LoopSt × LoopExit :=
  let wr : Option (List Ev × List Bool) :=
    if st.strout = "" then some ([], outs)
    else
      match outs with
      | [] => some ([Ev.writeOk st.strout], [])
      | true :: tl => some ([Ev.writeOk st.strout], tl)
      | false :: _ => none
  match wr with
  | none => ([Ev.writeFail st.strout], st, LoopExit.writeFailed)
  | some (evs, outs1) =>
    match ins with
    | [] => (evs, st, LoopExit.eof)
    | chunk :: rest =>
      if chunk.length < 1 then (evs, st, LoopExit.eof)
      else
        let record := strDropLast chunk
        let p := transform cfg st.attrs record
        let q := streamLoop cfg rest outs1 ⟨p.1, p.2⟩
        (evs ++ Ev.readRec record :: q.1, q.2)

/-- Process-wide mutable state crossing `run` invocations: the
connection counter `nr_conns` and the `strout` / `jsonAttrs` globals. -/
structure PState where
  nrConns : Nat
  strout : String
  attrs : Attrs
deriving DecidableEq

/-- How one `run` invocation ends: `os.Exit(0)` at end of stream,
`os.Exit(1)` on an initial connect failure with retries disabled, or a
plain `return` back into the reconnect loop of `main`. -/
inductive RunExit
  | exitSuccess
  | exitFailure
  | returned
deriving DecidableEq

/-- How the end of the streaming loop maps to the end of `run`: a
failed write/flush is a plain `return`, falling out at end of stream
reaches the `os.Exit(0)` after the loop. -/
def exitOfLoop : LoopExit → RunExit
  | LoopExit.writeFailed => RunExit.returned
  | LoopExit.eof => RunExit.exitSuccess

/-- One invocation of `run`: on connect failure, exit with failure
status when no connection ever succeeded and -retry-initial-connect is
off, else return; on connect success, bump the counter and enter the
streaming loop. -/
def runModel (cfg : Config) (connectOk : Bool) (ins : List String) (outs : List Bool)
    (st : PState) : List Ev × PState × RunExit :=
  if connectOk then
    let q := streamLoop cfg ins outs ⟨st.strout, st.attrs⟩
    (q.1, ⟨st.nrConns + 1, q.2.1.strout, q.2.1.attrs⟩, exitOfLoop q.2.2)
  else
    if st.nrConns = 0 ∧ cfg.initReconnect = false then ([], st, RunExit.exitFailure)
    else ([], st, RunExit.returned)

/-- What the `main` loop does after `run` comes back. -/
inductive ProcOutcome
  | exited : Bool → ProcOutcome
  | reconnectAfterSleep : Int → PState → ProcOutcome
deriving DecidableEq

/-- One iteration of the reconnect loop in `main`: invoke `run`; when
`run` exits the process that exit stands (`exited true` = failure
status); when `run` returns, sleep and go around again if the
reconnect delay is positive, otherwise `os.Exit(1)`. -/
def mainIter (cfg : Config) (connectOk : Bool) (ins : List String) (outs : List Bool)
    (st : PState) : List Ev × ProcOutcome :=
  let q := runModel cfg connectOk ins outs st
  match q.2.2 with
  | RunExit.exitSuccess => (q.1, ProcOutcome.exited false)
  | RunExit.exitFailure => (q.1, ProcOutcome.exited true)
  | RunExit.returned =>
    if cfg.reconnectTime > 0 then
      (q.1, ProcOutcome.reconnectAfterSleep cfg.reconnectTime q.2.1)
    else
      (q.1, ProcOutcome.exited true)

/-! Concrete configurations and states used by the closed example
theorems below. -/

/-- A one-character string holding only the NUL character. -/
def nulStr : String := String.mk [Char.ofNat 0]

/-- Line mode, no -prefix, wrap width 5, default flags. -/
def cfgC1 : Config := ⟨"", 5, OutputMode.line, true, true, 1⟩

/-- Line mode, -prefix "p: ", default flags. -/
def cfgC2 : Config := ⟨"p: ", 0, OutputMode.line, true, true, 1⟩

/-- A process state with a nonempty pending unit and no connections. -/
def pstC2 : PState := ⟨0, "u\n", []⟩

/-- Default configuration with -retry-initial-connect disabled. -/
def cfgC3 : Config := ⟨"", 0, OutputMode.line, true, false, 1⟩

/-- A fresh process state: no connections, empty pending unit. -/
def pstC3 : PState := ⟨0, "", []⟩

/-- Structured mode with -prefix "ab": plen omits the +1. -/
def cfgC4 : Config := ⟨"ab", 0, OutputMode.json, true, true, 1⟩

/-- Line mode with -prefix "X: " and no wrapping. -/
def cfgC5 : Config := ⟨"X: ", 0, OutputMode.line, true, true, 1⟩

/-- Structured mode with -prefix "X: " and no wrapping. -/
def cfgC6 : Config := ⟨"X: ", 0, OutputMode.json, true, true, 1⟩

/-- Default configuration with -reconnect-time 0. -/
def cfgC8 : Config := ⟨"", 0, OutputMode.line, true, true, 0⟩

/-- A process state after one successful connection. -/
def pstC8 : PState := ⟨1, "", []⟩

/-- Line mode, no -prefix, no wrapping, default flags. -/
def cfgC9 : Config := ⟨"", 0, OutputMode.line, true, true, 1⟩

/-- Structured mode, no -prefix, no wrapping, default flags. -/
def cfgC10 : Config := ⟨"", 0, OutputMode.json, true, true, 1⟩

/-! Helper lemmas. -/

theorem strData_ext {a b : String} (h : a.data = b.data) : a = b := by
  cases a
  cases b
  cases h
  rfl

theorem strData_append (a b : String) : (a ++ b).data = a.data ++ b.data := by
  cases a
  cases b
  rfl

theorem strMk_data (s : String) : String.mk s.data = s := by
  cases s
  rfl

theorem strData_mk (l : List Char) : (String.mk l).data = l := rfl

theorem strLength_data (s : String) : s.length = s.data.length := rfl

/-- The wrapping loop preserves every character in order: flattening
the produced chunks recovers the pending content plus the remaining
input, whatever the wrap width and byte counters are. -/
theorem wrapChunks_flatten (pl : Nat) (w : Int) :
    ∀ (cs cur : List Char) (lb : Nat), (wrapChunks pl w cs cur lb).flatten = cur ++ cs := by
  intro cs
  induction cs with
  | nil =>
    intro cur lb
    simp [wrapChunks]
  | cons c cs ih =>
    intro cur lb
    unfold wrapChunks
    dsimp only
    split
    · simp [ih]
    · simp [ih]

/-- A string with no NUL characters passes through `escNul` unchanged. -/
theorem escNul_of_no_nul (s : String) (h : ∀ c ∈ s.data, c ≠ Char.ofNat 0) :
    escNul s = s := by
  apply strData_ext
  unfold escNul
  rw [strData_mk]
  have : ∀ l : List Char, (∀ c ∈ l, c ≠ Char.ofNat 0) →
      (l.flatMap (fun c => if c = Char.ofNat 0 then "<NUL>".data else [c])) = l := by
    intro l hl
    induction l with
    | nil => simp
    | cons c cs ih =>
      have hc : c ≠ Char.ofNat 0 := hl c (by simp)
      simp only [List.flatMap_cons, if_neg hc]
      rw [ih (fun d hd => hl d (by simp [hd]))]
      simp
  exact this s.data h

/-- The null-escaping step leaves NUL-free records unchanged. -/
theorem escInput_of_no_nul (cfg : Config) (r : String)
    (h : cfg.escNull = false ∨ ∀ c ∈ r.data, c ≠ Char.ofNat 0) :
    escInput cfg r = r := by
  unfold escInput
  cases h with
  | inl h => simp [h]
  | inr h =>
    rw [escNul_of_no_nul r h]
    simp

/-- Stripping the first `p.length` characters and the trailing newline
from a line-mode physical line recovers the message content. -/
theorem stripLine_of_line (p s : String) :
    stripLine p.length ((p ++ s) ++ "\n") = s := by
  apply strData_ext
  unfold stripLine
  rw [strData_mk, strData_append, strData_append]
  have hnl : ("\n" : String).data = ['\n'] := rfl
  rw [hnl, strLength_data, List.append_assoc, List.drop_left, List.dropLast_concat]

theorem strAppend_empty (s : String) : s ++ "" = s := by
  apply strData_ext
  rw [strData_append]
  simp [show ("" : String).data = [] from rfl]

/-- In line mode `emitChunks` just prefixes each chunk and appends a
newline; the attribute map is untouched. -/
theorem emitChunks_line (cfg : Config) (hm : cfg.mode = OutputMode.line) :
    ∀ (chs : List (List Char)) (attrs : Attrs),
      emitChunks cfg attrs chs
        = (chs.map (fun ch => (cfg.pfx ++ String.mk ch) ++ "\n"), attrs) := by
  intro chs
  induction chs with
  | nil =>
    intro attrs
    simp [emitChunks]
  | cons ch rest ih =>
    intro attrs
    simp [emitChunks, makeOutString, hm, ih]

/-- Joining singleton-built strings is building from the flattening. -/
theorem joinStrings_map_mk (chs : List (List Char)) :
    joinStrings (chs.map String.mk) = String.mk chs.flatten := by
  induction chs with
  | nil => rfl
  | cons ch rest ih =>
    apply strData_ext
    simp only [List.map_cons, joinStrings, strData_append, ih, strData_mk, List.flatten_cons]

/-- Reassigning the same key overwrites the earlier assignment. -/
theorem setAttr_setAttr (m : Attrs) (k x y : String) :
    setAttr (setAttr m k x) k y = setAttr m k y := by
  induction m with
  | nil => simp [setAttr]
  | cons p rest ih =>
    obtain ⟨k', v'⟩ := p
    by_cases h : k' = k
    · simp [setAttr, h]
    · simp [setAttr, h, ih]

/-- Looking up the key just assigned yields the assigned value. -/
theorem lookupA_setAttr_self (m : Attrs) (k v : String) :
    lookupA (setAttr m k v) k = some v := by
  induction m with
  | nil => simp [setAttr, lookupA]
  | cons p rest ih =>
    obtain ⟨k', v'⟩ := p
    by_cases h : k' = k
    · simp [setAttr, h, lookupA]
    · simp [setAttr, h, lookupA, ih]

/-- Assigning one key leaves lookups of other keys unchanged. -/
theorem lookupA_setAttr_ne (m : Attrs) (k k' v : String) (h : k' ≠ k) :
    lookupA (setAttr m k v) k' = lookupA m k' := by
  induction m with
  | nil => simp [setAttr, lookupA, Ne.symm h]
  | cons p rest ih =>
    obtain ⟨k1, v1⟩ := p
    by_cases h1 : k1 = k
    · subst h1
      simp [setAttr, lookupA, Ne.symm h]
    · simp only [setAttr, if_neg h1, lookupA]
      by_cases h2 : k1 = k'
      · simp [h2]
      · simp [h2, ih]

/-- In json mode the lines `emitChunks` emits marshal the map with the
"message" key bound to the prefixed chunk; successive mutations of the
shared map are absorbed by the overwrite. -/
theorem emitChunks_json_fst (cfg : Config) (hm : cfg.mode = OutputMode.json) :
    ∀ (chs : List (List Char)) (attrs : Attrs),
      (emitChunks cfg attrs chs).1
        = chs.map (fun ch =>
            jsonMarshalMap (setAttr attrs "message" (cfg.pfx ++ String.mk ch)) ++ "\n") := by
  intro chs
  induction chs with
  | nil =>
    intro attrs
    simp [emitChunks]
  | cons ch rest ih =>
    intro attrs
    simp only [emitChunks, makeOutString, hm, ih, List.map_cons, setAttr_setAttr]

/-- Mutating the shared map after `emitChunks` never changes which
lines come out in line mode either; record the json-mode map shape:
after emitting a chunk the map holds the latest payload. -/
theorem splitEq2_append (l r : List Char) (hl : '=' ∉ l) :
    splitEq2 (l ++ '=' :: r) = some (l, r) := by
  induction l with
  | nil => simp [splitEq2]
  | cons c cs ih =>
    have hc : c ≠ '=' := by
      intro h
      exact hl (by simp [h])
    have hcs : '=' ∉ cs := by
      intro h
      exact hl (by simp [h])
    simp [splitEq2, hc, ih hcs]

/-- With distinct keys, replacing the binding of a key removes the old
pair from the map entirely. -/
theorem not_mem_setAttr (attrs : Attrs) (k v instr : String)
    (hnd : (attrs.map Prod.fst).Nodup) (hne : v ≠ instr) :
    (k, v) ∉ setAttr attrs k instr := by
  induction attrs with
  | nil =>
    simp only [setAttr, List.mem_singleton]
    intro hmem
    exact hne (congrArg Prod.snd hmem)
  | cons p rest ih =>
    obtain ⟨k1, v1⟩ := p
    by_cases h1 : k1 = k
    · subst h1
      simp only [setAttr, if_pos rfl]
      intro hmem
      rcases List.mem_cons.mp hmem with h | h
      · exact hne (congrArg Prod.snd h)
      · have : k1 ∈ rest.map Prod.fst := List.mem_map.mpr ⟨(k1, v), h, rfl⟩
        simp only [List.map_cons, List.nodup_cons] at hnd
        exact hnd.1 this
    · simp only [setAttr, if_neg h1]
      intro hmem
      rcases List.mem_cons.mp hmem with h | h
      · exact h1 (congrArg Prod.fst h).symm
      · simp only [List.map_cons, List.nodup_cons] at hnd
        exact ih hnd.2 h

/-- When the pending unit is nonempty, the streaming loop's first
observable event is a write of that unit; if that first write fails the
loop stops at once with the unit still pending and nothing read. -/
theorem streamLoop_first_write (cfg : Config) (ins : List String) (outs : List Bool)
    (st : LoopSt) (h : st.strout ≠ "") :
    (streamLoop cfg ins outs st).1.head? = some (Ev.writeOk st.strout)
    ∨ streamLoop cfg ins outs st = ([Ev.writeFail st.strout], st, LoopExit.writeFailed) := by
  unfold streamLoop
  simp only [if_neg h]
  cases outs with
  | nil =>
    cases ins with
    | nil => left; rfl
    | cons chunk rest =>
      by_cases hc : chunk.length < 1
      · left
        simp [hc]
      · left
        simp [hc]
  | cons b tl =>
    cases b with
    | false => right; rfl
    | true =>
      cases ins with
      | nil => left; rfl
      | cons chunk rest =>
        by_cases hc : chunk.length < 1
        · left
          simp [hc]
        · left
          simp [hc]

end Logpipe

namespace Logpipe

/-! The claim theorems. -/

/-- Claim C3: if the very first connection attempt fails, no successful
connection has ever been made (counter 0), and retry-initial-connect is
disabled, the process exits with a failure status without ever reading
from the input source (the event trace is empty, so it contains no
read event). -/
theorem c3_initial_failure_exits (cfg : Config) (ins : List String) (outs : List Bool)
    (st : PState) (hr : cfg.initReconnect = false) (h0 : st.nrConns = 0) :
    runModel cfg false ins outs st = ([], st, RunExit.exitFailure)
    ∧ ∀ r, Ev.readRec r ∉ (runModel cfg false ins outs st).1 := by
  have hmain : runModel cfg false ins outs st = ([], st, RunExit.exitFailure) := by
    simp [runModel, hr, h0]
  refine ⟨hmain, ?_⟩
  intro r
  rw [hmain]
  simp

/-- Closed instance of the previous theorem: with -retry-initial-connect
false and a fresh state, a failed first connect exits with failure and
reads nothing. -/
theorem c3_witness :
    cfgC3.initReconnect = false ∧ pstC3.nrConns = 0
    ∧ runModel cfgC3 false ["x\n"] [] pstC3 = ([], pstC3, RunExit.exitFailure) :=
  ⟨rfl, rfl, (c3_initial_failure_exits cfgC3 ["x\n"] [] pstC3 rfl rfl).1⟩

/-- Claim C4 counterexample: in structured (json) output mode the
precomputed plen is just the prefix byte length; the claimed +1 fails
at the concrete configuration with prefix "ab" and json mode. -/
theorem c4_counterexample :
    ¬ plenOf cfgC4 = cfgC4.pfx.utf8ByteSize + 1 := by decide

/-- Claim C4 (amended): the effectivePrefixLen used in the wrap-width
comparison is the prefix byte length plus one in line output mode only;
in structured (json) mode no +1 is added. -/
theorem c4_amended (cfg : Config) :
    plenOf cfg = cfg.pfx.utf8ByteSize + (if cfg.mode = OutputMode.line then 1 else 0) := by
  unfold plenOf
  dsimp only
  split <;> simp

/-- Claim C7: the wrapping step of the record transformer is a total
function (so it terminates for every record and every wrap width,
including widths at or below the effective prefix length), and every
character of the record appears in the produced chunks, in order, with
nothing lost or duplicated: flattening the chunks is the record. -/
theorem c7_wrap_total_preserves (cfg : Config) (stxt : String) :
    (recordChunks cfg stxt).flatten = stxt.data := by
  unfold recordChunks
  simpa using wrapChunks_flatten (plenOf cfg) cfg.wrap stxt.data [] (plenOf cfg)

/-- Claim C8: whenever `run` returns to the reconnect loop (connection
loss or non-initial connect failure), a reconnect delay of 0 makes the
process exit with failure status with no reconnect attempt, and a
positive delay makes the loop sleep for exactly the configured delay
and then reconnect carrying the resulting state. -/
theorem c8_reconnect_policy (cfg : Config) (connectOk : Bool) (ins : List String)
    (outs : List Bool) (st : PState)
    (hret : (runModel cfg connectOk ins outs st).2.2 = RunExit.returned) :
    (cfg.reconnectTime = 0 → (mainIter cfg connectOk ins outs st).2 = ProcOutcome.exited true)
    ∧ (0 < cfg.reconnectTime → (mainIter cfg connectOk ins outs st).2
        = ProcOutcome.reconnectAfterSleep cfg.reconnectTime
            (runModel cfg connectOk ins outs st).2.1) := by
  constructor
  · intro h0
    unfold mainIter
    dsimp only
    rw [hret]
    simp [h0]
  · intro hpos
    unfold mainIter
    dsimp only
    rw [hret]
    simp [hpos]

/-- Closed instance: a non-initial connect failure with reconnect delay
0 makes the process exit with failure, with no reconnect. -/
theorem c8_witness :
    (runModel cfgC8 false [] [] pstC8).2.2 = RunExit.returned
    ∧ cfgC8.reconnectTime = 0
    ∧ (mainIter cfgC8 false [] [] pstC8).2 = ProcOutcome.exited true :=
  ⟨by decide, rfl, (c8_reconnect_policy cfgC8 false [] [] pstC8 (by decide)).1 rfl⟩

/-- Dropping the final character changes every nonempty string. -/
theorem strDropLast_ne (c : String) (h : c ≠ "") : strDropLast c ≠ c := by
  have hd : c.data ≠ [] := by
    intro hn
    apply h
    apply strData_ext
    rw [hn]
  intro heq
  have hdata := congrArg String.data heq
  rw [strDropLast, strData_mk] at hdata
  have hlen := congrArg List.length hdata
  rw [List.length_dropLast] at hlen
  have hpos : 0 < c.data.length := List.length_pos.mpr hd
  omega

/-- Claim C9: in the structured-output variant, the read step strips
the final character of whatever `ReadString` returned, so a non-empty
final record with no trailing newline is truncated: the record handed
to the transformer is `strDropLast c`, which differs from `c`, and the
streaming loop's read event records the truncated record. -/
theorem c9_final_record_truncated (c : String) (h : c ≠ "") :
    recordOfChunk c = some (strDropLast c)
    ∧ strDropLast c ≠ c
    ∧ ∀ (cfg : Config) (attrs : Attrs) (outs : List Bool),
        (streamLoop cfg [c] outs ⟨"", attrs⟩).1.head?
          = some (Ev.readRec (strDropLast c)) := by
  have hd : c.data ≠ [] := by
    intro hn
    apply h
    apply strData_ext
    rw [hn]
  have hlen : ¬ c.length < 1 := by
    rw [strLength_data]
    have := List.length_pos.mpr hd
    omega
  refine ⟨by simp [recordOfChunk, hlen], strDropLast_ne c h, ?_⟩
  intro cfg attrs outs
  unfold streamLoop
  simp [hlen]

/-- Closed instance: the chunk "hi" (a final record with no newline)
becomes the record "h". -/
theorem c9_witness :
    ("hi" : String) ≠ ""
    ∧ recordOfChunk "hi" = some (strDropLast "hi")
    ∧ strDropLast "hi" ≠ "hi"
    ∧ (streamLoop cfgC9 ["hi"] [] ⟨"", []⟩).1.head?
        = some (Ev.readRec (strDropLast "hi")) :=
  ⟨by decide, (c9_final_record_truncated "hi" (by decide)).1,
   (c9_final_record_truncated "hi" (by decide)).2.1,
   (c9_final_record_truncated "hi" (by decide)).2.2 cfgC9 [] []⟩

end Logpipe

namespace Logpipe

/-- Claim C5: in line output mode, with wrap width 0 and a record with
no NUL characters, the pending output unit is exactly
prefix + record + newline. -/
theorem c5_no_wrap_single_line (cfg : Config) (attrs : Attrs) (r : String)
    (hm : cfg.mode = OutputMode.line) (hw : cfg.wrap = 0)
    (hn : ∀ c ∈ r.data, c ≠ Char.ofNat 0) :
    (transform cfg attrs r).1 = (cfg.pfx ++ r) ++ "\n" := by
  unfold transform physicalLines
  rw [escInput_of_no_nul cfg r (Or.inr hn)]
  dsimp only
  rw [if_pos (Or.inl hw)]
  simp [makeOutString, hm, joinStrings, strAppend_empty]

/-- Closed instance of the wrap-0 single-line law at prefix "X: " and
record "hi". -/
theorem c5_witness :
    cfgC5.mode = OutputMode.line ∧ cfgC5.wrap = 0
    ∧ (∀ c ∈ ("hi" : String).data, c ≠ Char.ofNat 0)
    ∧ (transform cfgC5 [] "hi").1 = (cfgC5.pfx ++ "hi") ++ "\n" :=
  ⟨rfl, rfl, by decide, c5_no_wrap_single_line cfgC5 [] "hi" rfl rfl (by decide)⟩

/-- Claim C1 counterexample: with null-escaping enabled (the default)
the round trip fails on a raw record containing a NUL character, even
with wrap width strictly greater than the effective prefix length: the
reassembled message content is the marker, not the record. -/
theorem c1_counterexample :
    cfgC1.mode = OutputMode.line
    ∧ (plenOf cfgC1 : Int) < cfgC1.wrap
    ∧ joinStrings (((physicalLines cfgC1 [] nulStr).1).map (stripLine cfgC1.pfx.length))
        ≠ nulStr := by
  refine ⟨rfl, by decide, by decide⟩

/-- Claim C1 (amended): in line output mode, for a raw record that the
null-escaping step leaves unchanged (escaping disabled or no NUL
characters) and any wrap width strictly greater than the effective
prefix length, stripping the prefix and trailing newline from every
produced physical line and concatenating recovers the record exactly:
no character lost, duplicated, or split (chunks are whole-character
lists by construction). -/
theorem c1_round_trip (cfg : Config) (attrs : Attrs) (r : String)
    (hm : cfg.mode = OutputMode.line)
    (hn : cfg.escNull = false ∨ ∀ c ∈ r.data, c ≠ Char.ofNat 0)
    (hw : (plenOf cfg : Int) < cfg.wrap) :
    joinStrings (((physicalLines cfg attrs r).1).map (stripLine cfg.pfx.length)) = r := by
  unfold physicalLines
  rw [escInput_of_no_nul cfg r hn]
  dsimp only
  split
  · simp only [makeOutString, hm, List.map_cons, List.map_nil, stripLine_of_line]
    simp [joinStrings, strAppend_empty]
  · rw [emitChunks_line cfg hm]
    rw [List.map_map]
    have hcomp : (stripLine cfg.pfx.length) ∘ (fun ch => (cfg.pfx ++ String.mk ch) ++ "\n")
        = fun ch => String.mk ch := by
      funext ch
      simp [Function.comp, stripLine_of_line]
    rw [hcomp]
    have h2 : (recordChunks cfg r).flatten = r.data := by
      unfold recordChunks
      simpa using wrapChunks_flatten (plenOf cfg) cfg.wrap r.data [] (plenOf cfg)
    rw [show ((recordChunks cfg r).map fun ch => String.mk ch)
          = (recordChunks cfg r).map String.mk from rfl]
    rw [joinStrings_map_mk, h2, strMk_data]

/-- Closed instance of the amended round trip: record "ab", wrap 5. -/
theorem c1_witness :
    cfgC1.mode = OutputMode.line
    ∧ (cfgC1.escNull = false ∨ ∀ c ∈ ("ab" : String).data, c ≠ Char.ofNat 0)
    ∧ (plenOf cfgC1 : Int) < cfgC1.wrap
    ∧ joinStrings (((physicalLines cfgC1 [] "ab").1).map (stripLine cfgC1.pfx.length))
        = "ab" :=
  ⟨rfl, Or.inr (by decide), by decide,
   c1_round_trip cfgC1 [] "ab" rfl (Or.inr (by decide)) (by decide)⟩

end Logpipe

namespace Logpipe

/-- On a successful connect, `run` is the streaming loop with the
counter bumped. -/
theorem runModel_true (cfg : Config) (ins : List String) (outs : List Bool) (st : PState) :
    runModel cfg true ins outs st
      = ((streamLoop cfg ins outs ⟨st.strout, st.attrs⟩).1,
         ⟨st.nrConns + 1, (streamLoop cfg ins outs ⟨st.strout, st.attrs⟩).2.1.strout,
          (streamLoop cfg ins outs ⟨st.strout, st.attrs⟩).2.1.attrs⟩,
         exitOfLoop (streamLoop cfg ins outs ⟨st.strout, st.attrs⟩).2.2) := rfl

/-- Claim C2: a pending output unit survives a failed write or flush —
the failed run returns with the unit still in place and the input
source untouched; on any run with that unit pending (in particular the
next successful connection attempt), the very first event is a write of
exactly that unit, before any record is read; and the unit can only
have been replaced after it was written and flushed successfully. -/
theorem c2_pending_unit_carryover (cfg : Config) (ins : List String) (outs : List Bool)
    (st : PState) (u : String) (hu : st.strout = u) (hne : u ≠ "") :
    runModel cfg true ins (false :: outs) st
      = ([Ev.writeFail u], ⟨st.nrConns + 1, u, st.attrs⟩, RunExit.returned)
    ∧ (∀ (ins2 : List String) (outs2 : List Bool), ∃ e,
        (runModel cfg true ins2 outs2 st).1.head? = some e
        ∧ (e = Ev.writeOk u ∨ e = Ev.writeFail u))
    ∧ (∀ (ins2 : List String) (outs2 : List Bool),
        (runModel cfg true ins2 outs2 st).2.1.strout ≠ u →
        (runModel cfg true ins2 outs2 st).1.head? = some (Ev.writeOk u)) := by
  have hne' : (⟨u, st.attrs⟩ : LoopSt).strout ≠ "" := hne
  have hstream : streamLoop cfg ins (false :: outs) ⟨u, st.attrs⟩
      = ([Ev.writeFail u], ⟨u, st.attrs⟩, LoopExit.writeFailed) := by
    unfold streamLoop
    simp [hne]
  refine ⟨?_, ?_, ?_⟩
  · rw [runModel_true, hu, hstream]
    rfl
  · intro ins2 outs2
    rcases streamLoop_first_write cfg ins2 outs2 ⟨u, st.attrs⟩ hne' with hfw | hfw
    · exact ⟨Ev.writeOk u, by rw [runModel_true, hu]; exact hfw, Or.inl rfl⟩
    · refine ⟨Ev.writeFail u, ?_, Or.inr rfl⟩
      rw [runModel_true, hu, hfw]
      rfl
  · intro ins2 outs2 hch
    rw [runModel_true, hu] at hch ⊢
    rcases streamLoop_first_write cfg ins2 outs2 ⟨u, st.attrs⟩ hne' with hfw | hfw
    · exact hfw
    · exfalso
      apply hch
      rw [hfw]

/-- Closed instance: a pending unit and a failing first write leave
the unit pending and read nothing; with a succeeding write the first
event is still the write of that unit. -/
theorem c2_witness :
    pstC2.strout = "u\n" ∧ ("u\n" : String) ≠ ""
    ∧ runModel cfgC2 true ["a\n"] [false] pstC2
        = ([Ev.writeFail "u\n"], ⟨1, "u\n", []⟩, RunExit.returned)
    ∧ (∃ e, (runModel cfgC2 true ["b\n"] [] pstC2).1.head? = some e
        ∧ (e = Ev.writeOk "u\n" ∨ e = Ev.writeFail "u\n")) :=
  ⟨rfl, by decide,
   (c2_pending_unit_carryover cfgC2 ["a\n"] [] pstC2 "u\n" rfl (by decide)).1,
   (c2_pending_unit_carryover cfgC2 ["a\n"] [] pstC2 "u\n" rfl (by decide)).2.1 ["b\n"] []⟩

/-- Claim C6: in structured (json) output mode every produced physical
line is the serialization of the flat attribute map with the "message"
key bound to that line's payload (prefix + chunk); the object's
"message" field is the payload and every other configured extra field
is preserved. -/
theorem c6_structured_payload (cfg : Config) (attrs : Attrs) (r : String)
    (hm : cfg.mode = OutputMode.json) :
    (physicalLines cfg attrs r).1
      = (linePayloads cfg r).map
          (fun p => jsonMarshalMap (setAttr attrs "message" p) ++ "\n")
    ∧ ∀ p ∈ linePayloads cfg r,
        lookupA (setAttr attrs "message" p) "message" = some p
        ∧ ∀ k v, lookupA attrs k = some v → k ≠ "message" →
            lookupA (setAttr attrs "message" p) k = some v := by
  constructor
  · unfold physicalLines linePayloads
    dsimp only
    split_ifs with hc
    · simp [makeOutString, hm]
    · rw [emitChunks_json_fst cfg hm, List.map_map]
      rfl
  · intro p _
    refine ⟨lookupA_setAttr_self attrs "message" p, ?_⟩
    intro k v hk hkne
    rw [lookupA_setAttr_ne attrs "message" k p hkne, hk]

/-- Closed instance: extra field host="a", prefix "X: ", record
"hello": the single line's object is the map with host="a" and
message="X: hello". -/
theorem c6_witness :
    cfgC6.mode = OutputMode.json
    ∧ (physicalLines cfgC6 [("host", "a")] "hello").1
        = (linePayloads cfgC6 "hello").map
            (fun p => jsonMarshalMap (setAttr [("host", "a")] "message" p) ++ "\n")
    ∧ ∀ p ∈ linePayloads cfgC6 "hello",
        lookupA (setAttr [("host", "a")] "message" p) "message" = some p
        ∧ ∀ k v, lookupA [("host", "a")] k = some v → k ≠ "message" →
            lookupA (setAttr [("host", "a")] "message" p) k = some v :=
  ⟨rfl, (c6_structured_payload cfgC6 [("host", "a")] "hello" rfl).1,
   (c6_structured_payload cfgC6 [("host", "a")] "hello" rfl).2⟩

/-- Claim C10: a -json-attr named "message" is accepted by the flag
parser (only duplicates are rejected), yet `makeOutString` assigns the
payload to the shared map's "message" key before serializing, so the
user-supplied value is gone from the map the moment any structured
record is produced: the mutated map binds "message" to the payload and
no longer contains the configured pair at all. -/
theorem c10_message_attr_overwritten (cfg : Config) (m attrs : Attrs) (v instr : String)
    (hm : cfg.mode = OutputMode.json)
    (hfresh : lookupA m "message" = none)
    (hmem : ("message", v) ∈ attrs)
    (hnd : (attrs.map Prod.fst).Nodup)
    (hne : v ≠ instr) :
    attrSet m ("message=" ++ v) = some (m ++ [("message", v)])
    ∧ (makeOutString cfg attrs instr).2 = setAttr attrs "message" instr
    ∧ lookupA (makeOutString cfg attrs instr).2 "message" = some instr
    ∧ ("message", v) ∉ (makeOutString cfg attrs instr).2 := by
  have hdata : ("message=" ++ v).data = "message".data ++ '=' :: v.data := by
    rw [strData_append]
    rfl
  have hsplit : splitEq2 ("message=" ++ v).data = some ("message".data, v.data) := by
    rw [hdata]
    exact splitEq2_append "message".data v.data (by decide)
  have hmap : (makeOutString cfg attrs instr).2 = setAttr attrs "message" instr := by
    simp [makeOutString, hm]
  refine ⟨?_, hmap, ?_, ?_⟩
  · unfold attrSet
    rw [hsplit]
    dsimp only
    rw [strMk_data "message", hfresh, strMk_data v]
  · rw [hmap]
    exact lookupA_setAttr_self attrs "message" instr
  · rw [hmap]
    exact not_mem_setAttr attrs "message" v instr hnd hne

/-- Closed instance: -json-attr message=foo parses, and a structured
record with payload "bar" leaves no trace of "foo" in the map. -/
theorem c10_witness :
    cfgC10.mode = OutputMode.json
    ∧ lookupA [] "message" = none
    ∧ ("message", "foo") ∈ ([("message", "foo")] : Attrs)
    ∧ (([("message", "foo")] : Attrs).map Prod.fst).Nodup
    ∧ ("foo" : String) ≠ "bar"
    ∧ attrSet [] ("message=" ++ "foo") = some ([] ++ [("message", "foo")])
    ∧ (makeOutString cfgC10 [("message", "foo")] "bar").2
        = setAttr [("message", "foo")] "message" "bar"
    ∧ lookupA (makeOutString cfgC10 [("message", "foo")] "bar").2 "message" = some "bar"
    ∧ ("message", "foo") ∉ (makeOutString cfgC10 [("message", "foo")] "bar").2 :=
  ⟨rfl, rfl, by decide, by decide, by decide,
   (c10_message_attr_overwritten cfgC10 [] [("message", "foo")] "foo" "bar" rfl rfl
      (by decide) (by decide) (by decide)).1,
   (c10_message_attr_overwritten cfgC10 [] [("message", "foo")] "foo" "bar" rfl rfl
      (by decide) (by decide) (by decide)).2.1,
   (c10_message_attr_overwritten cfgC10 [] [("message", "foo")] "foo" "bar" rfl rfl
      (by decide) (by decide) (by decide)).2.2.1,
   (c10_message_attr_overwritten cfgC10 [] [("message", "foo")] "foo" "bar" rfl rfl
      (by decide) (by decide) (by decide)).2.2.2⟩

end Logpipe
